import Mathlib

/-!
Verification of the TSDB migration microservice
(`src/microservices/TSDB_MIGRATION/tsdb_migration.py`).

The Python class `TsdbMigration` is shallowly embedded below.  External
collaborators (the bucket client, the binary decoder, the QuestDB client,
the filename parsing helpers from `bin_file_processor`) are modelled as
parameters: the embedding takes their results as inputs, and mirrors the
control flow of the Python source on those inputs.
-/

set_option maxHeartbeats 1000000

/-! ## Character-list string helpers

Python's `in`, `str.endswith` and `str.replace(old, new, 1)` are modelled
on `List Char` by structural recursion so that every definition reduces in
the kernel. -/

/-- Does `hay` start with `needle`?  (Python `hay.startswith(needle)`.) -/
def startsWithL : List Char → List Char → Bool
  | [], _ => true
  | _ :: _, [] => false
  | a :: as, b :: bs => a == b && startsWithL as bs

/-- Does `hay` contain `needle` as a contiguous substring?
(Python `needle in hay`.) -/
def containsSubL (needle : List Char) : List Char → Bool
  | [] => startsWithL needle []
  | hay@(_ :: rest) => startsWithL needle hay || containsSubL needle rest

/-- Python `s in t` on strings. -/
def strContains (t s : String) : Bool :=
  containsSubL s.toList t.toList

/-- Python `s.endswith(suf)`. -/
def strEndsWith (s suf : String) : Bool :=
  startsWithL suf.toList.reverse s.toList.reverse

/-- Python `s.replace(old, new, 1)` on char lists: replace the first
occurrence of `old` (if any) by `new`. -/
def replaceFirstL (old new : List Char) : List Char → List Char
  | [] => if startsWithL old [] then new else []
  | c :: cs =>
    if startsWithL old (c :: cs) then new ++ (c :: cs).drop old.length
    else c :: replaceFirstL old new cs

/-- Python `s.replace(old, new, 1)` on strings. -/
def strReplaceFirst (s old new : String) : String :=
  ⟨replaceFirstL old.toList new.toList s.toList⟩

/-! ## Definition snapshot and eligibility
(`_load_valid_targets_packets`, `_is_command_file`, `_should_process_file`) -/

/-- The snapshot of valid system definitions held by the microservice:
`valid_targets`, `valid_tlm_packets` and `valid_cmd_packets`
(the dicts are modelled as association lists). -/
structure Defs where
  valid_targets : List String
  valid_tlm_packets : List (String × List String)
  valid_cmd_packets : List (String × List String)
deriving Repr

/-- Python `d.get(k, set())`: association-list lookup with empty default. -/
def lookupD (m : List (String × List String)) (k : String) : List String :=
  (m.lookup k).getD []

/-- Model of `TsdbMigration._is_command_file`: a file is a command file iff its path
contains `/decom_logs/cmd/`. -/
def is_command_file (file_path : String) : Bool :=
  strContains file_path ("/decom_logs/cmd/")

/-- Model of `TsdbMigration._should_process_file`.  `parse` stands for the external
`parse_target_packet_from_filename`, which returns a pair whose components
may each be `None`. -/
def should_process_file (parse : String → Option String × Option String)
    (defs : Defs) (filename : String) : Bool :=
  match parse filename with
  | (none, _) => false
  | (_, none) => false
  | (some target_name, some packet_name) =>
    if !(defs.valid_targets.contains target_name) then false
    else if packet_name == "ALL" then true
    else
      let valid_packets :=
        if is_command_file filename then lookupD defs.valid_cmd_packets target_name
        else lookupD defs.valid_tlm_packets target_name
      valid_packets.contains packet_name

/-! ## Catalog listing (`_list_decom_files`)

`_list_files_recursive` performs external bucket I/O; its results (the
files discovered under the `tlm/` and `cmd/` prefixes, in discovery order)
are taken as inputs.  `ts` stands for the external
`extract_timestamp_from_filename`. -/

/-- The extension filter applied by `_list_decom_files`:
keep names ending in `.bin` or `.bin.gz`. -/
def has_log_extension (f : String) : Bool :=
  strEndsWith f (".bin") || strEndsWith f (".bin.gz")

/-- Model of `TsdbMigration._list_decom_files`: filter both discovery lists by
extension, append, then stable-sort descending by parsed timestamp.
Python `list.sort(key=..., reverse=True)` is a stable descending sort;
it is modelled by the stable `List.insertionSort` under the relation
`ts b ≤ ts a`. -/
def list_decom_files (ts : String → Nat)
    (tlm_discovered cmd_discovered : List String) : List String :=
  ((tlm_discovered.filter has_log_extension) ++
    (cmd_discovered.filter has_log_extension)).insertionSort
    (fun a b => ts b ≤ ts a)

/-- The file-selection pipeline of `TsdbMigration.run` (lines 432-437):
list the decom files, then filter by `_should_process_file`.  No progress
checkpoint is consulted anywhere in `run`. -/
def run_file_selection (parse : String → Option String × Option String)
    (defs : Defs) (ts : String → Nat)
    (tlm_discovered cmd_discovered : List String) : List String :=
  (list_decom_files ts tlm_discovered cmd_discovered).filter
    (should_process_file parse defs)

/-! ## Per-file processing (`_process_file`)

A decoded file is a list of `Row`s: `Row.ok ing` is a packet that decodes
normally (`ing` = whether `process_json_data` yields a non-empty column
map), `Row.raise` is a packet whose processing raises an exception
(caught by the `except` clause at line 405).

The shared cancellation flag `self.cancel_thread` and the cancellable
`Sleeper` are modelled by one signal function `sig : Nat → Bool`: every
read of the flag, and every sleep (which reports whether it was cancelled),
consumes one index. -/

/-- One decoded packet of a file. -/
inductive Row where
  | ok (ingestible : Bool)
  | raise
deriving Repr, DecidableEq

/-- Number of ingestible packets in a row list. -/
def countIng (rows : List Row) : Nat :=
  (rows.filter (fun r => r == Row.ok true)).length

/-- Result of `_process_file`: `packets` = `packets_in_file` returned,
`flushes` = number of `questdb.flush()` calls issued, `errored` =
`had_error`, `stopped` = the loop was left by a cancellation `break`,
`next` = next unread signal index. -/
structure PFOut where
  packets : Nat
  flushes : Nat
  errored : Bool
  stopped : Bool
  next : Nat
deriving Repr, DecidableEq

/-- The packet loop of `_process_file` (lines 355-395).  Arguments after
the row list: signal index `g`, `packets_in_file`, `batch_count`, flushes
so far. -/
def pfLoop (B : Nat) (sig : Nat → Bool) :
    List Row → Nat → Nat → Nat → Nat → PFOut
  | [], g, p, _, fl => ⟨p, fl, false, false, g⟩
  | r :: rs, g, p, b, fl =>
    if sig g then ⟨p, fl, false, true, g + 1⟩
    else
      match r with
      | Row.raise => ⟨p, fl, true, false, g + 1⟩
      | Row.ok ing =>
        if ing then
          if B ≤ b + 1 then
            if sig (g + 1) then ⟨p + 1, fl + 1, false, true, g + 2⟩
            else pfLoop B sig rs (g + 2) (p + 1) 0 (fl + 1)
          else pfLoop B sig rs (g + 1) (p + 1) (b + 1) fl
        else pfLoop B sig rs (g + 1) p b fl

/-- Model of `TsdbMigration._process_file`: run the packet loop, then issue the
final flush (line 399) unless an exception aborted the `try` block. -/
def process_file (B : Nat) (sig : Nat → Bool) (rows : List Row) (g : Nat) :
    PFOut :=
  let o := pfLoop B sig rows g 0 0 0
  if o.errored then o else { o with flushes := o.flushes + 1 }

/-- The `self.errors_count` increment performed inside `_process_file`'s
`except` clause (line 409). -/
def errInc (o : PFOut) : Nat := if o.errored then 1 else 0

/-! ## The main run loop (`run`, lines 440-474) -/

/-- Observable outcome of the file loop: counter increments, a per-file
record of whether a pause followed the file and of which mirror the file
was routed to, and how many files were started. -/
structure RunOut where
  packets : Nat
  files : Nat
  errors : Nat
  pauses : List Bool
  moved_to_error : List Bool
  started : Nat
deriving Repr, DecidableEq

/-- The file loop of `TsdbMigration.run`: for each file check the
cancellation flag, process the file, bump the counters, route the file,
and pause for `pause_seconds` once `files_since_pause` reaches
`files_before_pause` (resetting the counter unless the pause sleep was
cancelled, in which case the loop breaks).  Arguments after the file
list: signal index `g` and `files_since_pause`. -/
def runLoop (B fbp : Nat) (sig : Nat → Bool) :
    List (List Row) → Nat → Nat → RunOut
  | [], _, _ => ⟨0, 0, 0, [], [], 0⟩
  | f :: fs, g, fsp =>
    if sig g then ⟨0, 0, 0, [], [], 0⟩
    else
      let o := process_file B sig f (g + 1)
      if fbp ≤ fsp + 1 then
        if sig o.next then ⟨o.packets, 1, errInc o, [true], [o.errored], 1⟩
        else
          let rest := runLoop B fbp sig fs (o.next + 1) 0
          ⟨o.packets + rest.packets, 1 + rest.files, errInc o + rest.errors,
            true :: rest.pauses, o.errored :: rest.moved_to_error,
            1 + rest.started⟩
      else
        let rest := runLoop B fbp sig fs o.next (fsp + 1)
        ⟨o.packets + rest.packets, 1 + rest.files, errInc o + rest.errors,
          false :: rest.pauses, o.errored :: rest.moved_to_error,
          1 + rest.started⟩

/-- Modelled from the spec: the pause cadence that claim C5's wording
describes, counting only successfully completed files (a pause after every
`fbp` files whose processing reported no error).  Input: the per-file
`had_error` flags and the current success counter. -/
def spec_pauses_after_successes (fbp : Nat) : List Bool → Nat → List Bool
  | [], _ => []
  | e :: es, c =>
    if e then false :: spec_pauses_after_successes fbp es c
    else if fbp ≤ c + 1 then true :: spec_pauses_after_successes fbp es 0
    else false :: spec_pauses_after_successes fbp es (c + 1)

/-! ## Snapshot loading (`_load_valid_targets_packets`) -/

/-- Model of `TsdbMigration._load_valid_targets_packets`.  The external calls
`get_target_names`, `get_all_tlm_names`, `get_all_cmd_names` are passed in
as `Except`-valued results.  A per-target failure degrades to the empty
set; a target-list failure re-raises. -/
def load_valid_targets_packets (tgtRes : Except String (List String))
    (tlmRes cmdRes : String → Except String (List String)) :
    Except String Defs :=
  match tgtRes with
  | Except.error e => Except.error e
  | Except.ok tgts =>
    Except.ok ⟨tgts,
      tgts.map (fun t => (t,
        match tlmRes t with
        | Except.ok l => l
        | Except.error _ => [])),
      tgts.map (fun t => (t,
        match cmdRes t with
        | Except.ok l => l
        | Except.error _ => []))⟩

/-- The `try`/`except` of `TsdbMigration.run` around the snapshot load
(lines 424-493): an exception raised by `_load_valid_targets_packets`
reaches the handler, which sets `self.state = "ERROR"`; otherwise the rest
of the run (`rest`) determines the final state. -/
def run_state_after_snapshot (tgtRes : Except String (List String))
    (tlmRes cmdRes : String → Except String (List String))
    (rest : Defs → String) : String :=
  match load_valid_targets_packets tgtRes tlmRes cmdRes with
  | Except.error _ => "ERROR"
  | Except.ok defs => rest defs

/-! ## Schema registry (`_load_table_schema`) -/

/-- The mutable schema-tracking state: `self._loaded_schemas` plus the
QuestDB client's column-classification dicts (modelled as key lists /
association lists; only membership matters). -/
structure SchemaSt where
  loaded_schemas : List String
  varchar_columns : List String
  json_columns : List String
  float_bit_sizes : List (String × Nat)
  decimal_int_columns : List String
deriving Repr, DecidableEq

/-- Python `s.upper()` (ASCII suffices for the type names concerned). -/
def upperStr (s : String) : String :=
  ⟨s.toList.map Char.toUpper⟩

/-- The classification of one `SHOW COLUMNS` row (lines 150-166). -/
def registerColumn (table_name : String) (st : SchemaSt)
    (row : String × String) : SchemaSt :=
  let col_name := row.1
  let col_key := table_name ++ "__" ++ col_name
  let upper_type := upperStr row.2
  if upper_type == "VARCHAR" then
    if strEndsWith col_name ("__C") then
      { st with varchar_columns := st.varchar_columns ++ [col_key] }
    else if strEndsWith col_name ("__F") then st
    else { st with json_columns := st.json_columns ++ [col_key] }
  else if upper_type == "FLOAT" then
    { st with float_bit_sizes := st.float_bit_sizes ++ [(col_key, 32)] }
  else if upper_type == "DOUBLE" then
    { st with float_bit_sizes := st.float_bit_sizes ++ [(col_key, 64)] }
  else if upper_type == "DECIMAL" then
    { st with decimal_int_columns := st.decimal_int_columns ++ [col_key] }
  else st

/-- Model of `TsdbMigration._load_table_schema`.  `query` stands for the
`SHOW COLUMNS` metadata query (an exception is caught and only logged).
Returns the new state and whether a query was performed. -/
def load_table_schema (query : String → Except String (List (String × String)))
    (st : SchemaSt) (table_name : String) : SchemaSt × Bool :=
  if st.loaded_schemas.contains table_name then (st, false)
  else
    let st1 :=
      match query table_name with
      | Except.error _ => st
      | Except.ok rows => rows.foldl (registerColumn table_name) st
    ({ st1 with loaded_schemas := st1.loaded_schemas ++ [table_name] }, true)

/-! ## File lifecycle (`_move_to_processed` / `_move_to_error`) -/

/-- The object store: a finite map from path to content (content ids
suffice). -/
abbrev BucketSt := List (String × Nat)

/-- Model of `put_object`. -/
def putObject (b : BucketSt) (k : String) (v : Nat) : BucketSt :=
  (k, v) :: b.filter (fun p => !(p.1 == k))

/-- Model of `delete_object`. -/
def deleteObject (b : BucketSt) (k : String) : BucketSt :=
  b.filter (fun p => !(p.1 == k))

/-- Model of `get_object`. -/
def getObject (b : BucketSt) (k : String) : Option Nat :=
  b.lookup k

/-- Destination path of `_move_to_processed` (line 292). -/
def processed_path (original_path : String) : String :=
  strReplaceFirst original_path ("/decom_logs/") ("/processed/decom_logs/")

/-- Destination path of `_move_to_error` (line 318). -/
def error_path (original_path : String) : String :=
  strReplaceFirst original_path ("/decom_logs/") ("/error/decom_logs/")

/-- Which step of the copy-then-delete raises, if any. -/
inductive MoveFail where
  | atGet
  | atPut
  | atDelete
deriving Repr, DecidableEq

/-- The shared `try` body of `_move_to_processed` / `_move_to_error`:
read the original, write it to the destination, delete the original.  An
exception at any step is caught (only logged), leaving the effects of the
earlier steps in place. -/
def move_object (b : BucketSt) (original_path dest_path : String)
    (fail : Option MoveFail) : BucketSt :=
  match fail with
  | some MoveFail.atGet => b
  | some MoveFail.atPut => b
  | some MoveFail.atDelete =>
    match getObject b original_path with
    | some data => putObject b dest_path data
    | none => b
  | none =>
    match getObject b original_path with
    | some data => deleteObject (putObject b dest_path data) original_path
    | none => b

/-- The routing dispatch of `run` (lines 454-458): errored files go to the
error mirror, clean files to the processed mirror. -/
def move_after_processing (b : BucketSt) (file_path : String)
    (had_error : Bool) (fail : Option MoveFail) : BucketSt :=
  if had_error then move_object b file_path (error_path file_path) fail
  else move_object b file_path (processed_path file_path) fail

/-! ## Concrete sample environment (used to instantiate the theorems) -/

/-- A sample `parse_target_packet_from_filename`. -/
def sample_parse (_ : String) : Option String × Option String :=
  (some ("T"), some ("ALL"))

/-- A sample definition snapshot with one target. -/
def sample_defs : Defs :=
  ⟨["T"], [("T", ["P"])], []⟩

/-- A sample `extract_timestamp_from_filename`. -/
def sample_ts (f : String) : Nat :=
  if strContains f ("/A.bin") then 300
  else if strContains f ("/B.bin") then 200
  else if strContains f ("/C.bin") then 100
  else 0

/-- Sample decom-log bucket paths. -/
def fileA : String := "S/decom_logs/tlm/T/A.bin"

/-- See `fileA`. -/
def fileB : String := "S/decom_logs/tlm/T/B.bin"

/-- See `fileA`. -/
def fileC : String := "S/decom_logs/tlm/T/C.bin"

/-- A second path with the same parsed timestamp as `fileB`
(`sample_ts` keys on the basename `B.bin`). -/
def fileB2 : String := "S/decom_logs/tlm/U/B.bin"

/-! # Theorems -/

/-! ## C2: eligibility filter -/

/-- C2: a candidate file whose filename parses to target `t` and packet
`p` is processed iff `t` is among the snapshotted valid targets and
either `p` is the sentinel `ALL` or `p` belongs to the snapshotted packet
set for the file's direction (command vs telemetry, determined by the
file's path). -/
theorem c2_eligibility (parse : String → Option String × Option String)
    (defs : Defs) (filename t p : String)
    (h : parse filename = (some t, some p)) :
    should_process_file parse defs filename = true ↔
      (t ∈ defs.valid_targets ∧
        (p = "ALL" ∨
          p ∈ (if is_command_file filename then
                  lookupD defs.valid_cmd_packets t
                else lookupD defs.valid_tlm_packets t))) := by
  rw [should_process_file, h]
  by_cases ht : t ∈ defs.valid_targets
  · simp only [ht, true_and]
    by_cases hall : p = "ALL"
    · simp [hall, ht]
    · by_cases hcmd : is_command_file filename
      · simp [ht, hall, hcmd]
      · simp [ht, hall, hcmd]
  · simp [ht]

/-- Witness for `c2_eligibility` at a concrete parseable filename. -/
theorem c2_eligibility_witness :
    should_process_file sample_parse sample_defs fileA = true ↔
      ("T" ∈ sample_defs.valid_targets ∧
        ("ALL" = "ALL" ∨
          "ALL" ∈ (if is_command_file fileA then
                      lookupD sample_defs.valid_cmd_packets ("T")
                    else lookupD sample_defs.valid_tlm_packets ("T")))) :=
  c2_eligibility sample_parse sample_defs fileA ("T") ("ALL") rfl

/-! ## C3: catalog contents, ordering and stability -/

/-- C3: for every set of discovered files (in discovery order: telemetry
walk then command walk), the catalog produced by `_list_decom_files` is a
permutation of exactly the discovered objects ending in `.bin`/`.bin.gz`,
is sorted descending by the timestamp parsed from the filename, and keeps
equal-timestamp files in their original discovery order. -/
theorem c3_catalog_ordering (ts : String → Nat) (tlm cmd : List String) :
    (list_decom_files ts tlm cmd).Perm
        ((tlm ++ cmd).filter has_log_extension) ∧
    (list_decom_files ts tlm cmd).Pairwise (fun a b => ts b ≤ ts a) ∧
    (∀ a b : String, [a, b].Sublist ((tlm ++ cmd).filter has_log_extension) →
      ts a = ts b → [a, b].Sublist (list_decom_files ts tlm cmd)) := by
  refine ⟨?_, ?_, ?_⟩
  · rw [List.filter_append]
    exact List.perm_insertionSort _ _
  · haveI : IsTotal String (fun a b => ts b ≤ ts a) :=
      ⟨fun a b => Nat.le_total (ts b) (ts a)⟩
    haveI : IsTrans String (fun a b => ts b ≤ ts a) :=
      ⟨fun _ _ _ hab hbc => Nat.le_trans hbc hab⟩
    exact List.sorted_insertionSort _ _
  · intro a b hsub hts
    rw [List.filter_append] at hsub
    exact List.pair_sublist_insertionSort (Nat.le_of_eq hts.symm) hsub

/-- Witness for `c3_catalog_ordering`: two equal-timestamp files keep
their discovery order in the sorted catalog. -/
theorem c3_catalog_ordering_witness :
    [fileB, fileB2].Sublist
      (list_decom_files sample_ts [fileA, fileB, fileB2, fileC] []) :=
  (c3_catalog_ordering sample_ts [fileA, fileB, fileB2, fileC] []).2.2
    fileB fileB2 (by decide) (by decide)

/-! ## C4: flush count per file -/

/-- Flush/packet accounting for the packet loop on a file with no raising
rows, no cancellation and no interrupted sleep: starting from
`batch_count = b < B`, the loop ingests every ingestible row and flushes
`(b + N) / B` more times, where `N` is the number of ingestible rows. -/
theorem pfLoop_count (B : Nat) (hB : 1 ≤ B) (flags : List Bool) :
    ∀ g p b fl, b < B →
      (pfLoop B (fun _ => false) (flags.map Row.ok) g p b fl).packets
          = p + flags.count true ∧
      (pfLoop B (fun _ => false) (flags.map Row.ok) g p b fl).flushes
          = fl + (b + flags.count true) / B ∧
      (pfLoop B (fun _ => false) (flags.map Row.ok) g p b fl).errored
          = false := by
  induction flags with
  | nil =>
    intro g p b fl hb
    simp [pfLoop, Nat.div_eq_of_lt hb]
  | cons f fs ih =>
    intro g p b fl hb
    cases f with
    | true =>
      by_cases hfl : B ≤ b + 1
      · have hc : b + (fs.count true + 1) = fs.count true + B := by omega
        simp only [List.map_cons, pfLoop, Bool.false_eq_true, if_false,
          if_true, hfl, List.count_cons_self]
        have h0 : (0 : Nat) < B := hB
        refine ⟨(ih (g + 2) (p + 1) 0 (fl + 1) h0).1.trans (by omega), ?_,
          (ih (g + 2) (p + 1) 0 (fl + 1) h0).2.2⟩
        rw [(ih (g + 2) (p + 1) 0 (fl + 1) h0).2.1, hc,
          Nat.add_div_right _ h0, Nat.zero_add]
        generalize fs.count true / B = q
        omega
      · have hb1 : b + 1 < B := by omega
        have hc : b + 1 + fs.count true = b + (fs.count true + 1) := by omega
        simp only [List.map_cons, pfLoop, Bool.false_eq_true, if_false,
          if_true, hfl, List.count_cons_self]
        refine ⟨(ih (g + 1) (p + 1) (b + 1) fl hb1).1.trans (by omega), ?_,
          (ih (g + 1) (p + 1) (b + 1) fl hb1).2.2⟩
        rw [(ih (g + 1) (p + 1) (b + 1) fl hb1).2.1, hc]
    | false =>
      have hcnt : (false :: fs).count true = fs.count true := by
        simp [List.count_cons]
      simp only [List.map_cons, pfLoop, Bool.false_eq_true, if_false, hcnt]
      exact ih (g + 1) p b fl hb

/-- C4 (amended): with `batch_size = B ≥ 1`, no cancellation and no write
errors, processing a file whose rows are all non-raising with `N`
ingestible rows issues exactly `⌊N / B⌋` in-loop flushes plus the one
mandatory final flush, i.e. `⌊N / B⌋ + 1` flushes in total — the final
flush is issued even when the last batch was full or empty. -/
theorem c4_flush_count (B : Nat) (hB : 1 ≤ B) (flags : List Bool) :
    (process_file B (fun _ => false) (flags.map Row.ok) 0).flushes
      = flags.count true / B + 1 := by
  have h := pfLoop_count B hB flags 0 0 0 0 hB
  rw [process_file]
  rw [h.2.2]
  simp only [Bool.false_eq_true, if_false]
  rw [h.2.1, Nat.zero_add, Nat.zero_add]

/-- Counterexample to C4 as stated: one ingestible row with
`batch_size = 1` issues 2 flushes (one in-loop flush at the full batch and
the mandatory final flush), not `⌈1/1⌉ = 1` flushes with no extra final
flush for a non-partial last batch. -/
theorem c4_flush_count_counterexample :
    (process_file 1 (fun _ => false) [Row.ok true] 0).flushes = 2 ∧
    ¬((process_file 1 (fun _ => false) [Row.ok true] 0).flushes
        = (1 + 1 - 1) / 1 + (if 1 % 1 = 0 then 0 else 1)) := by
  decide

/-- Witness for `c4_flush_count`: three ingestible rows, batch size two,
two flushes in total. -/
theorem c4_flush_count_witness :
    (process_file 2 (fun _ => false)
        ([true, true, true].map Row.ok) 0).flushes
      = [true, true, true].count true / 2 + 1 :=
  c4_flush_count 2 (by decide) [true, true, true]


/-! ## C5: pause cadence -/

/-- Pause accounting for the file loop with no cancellation: starting from
`files_since_pause = fsp < fbp`, a pause follows the `i`-th remaining file
iff `fsp + i + 1` is a multiple of `fbp`. -/
theorem runLoop_pauses (B fbp : Nat) (hfbp : 1 ≤ fbp)
    (files : List (List Row)) :
    ∀ g fsp, fsp < fbp →
      (runLoop B fbp (fun _ => false) files g fsp).pauses
        = (List.range files.length).map
            (fun i => decide ((fsp + i + 1) % fbp = 0)) := by
  induction files with
  | nil => intro g fsp _; simp [runLoop]
  | cons f fs ih =>
    intro g fsp hfsp
    rw [List.length_cons, List.range_succ_eq_map, List.map_cons,
      List.map_map]
    simp only [runLoop, Bool.false_eq_true, if_false]
    by_cases hp : fbp ≤ fsp + 1
    · have hfb : fsp + 1 = fbp := by omega
      simp only [hp, if_true]
      rw [ih _ 0 hfbp]
      congr 1
      · rw [Nat.add_zero, hfb, Nat.mod_self]
        simp
      · apply List.map_congr_left
        intro i _
        simp only [Function.comp_apply]
        have h2 : fsp + Nat.succ i + 1 = fbp + (i + 1) := by omega
        rw [h2, Nat.add_mod_left, Nat.zero_add]
    · have h1 : fsp + 1 < fbp := by omega
      simp only [hp, if_false]
      rw [ih _ (fsp + 1) h1]
      congr 1
      · rw [Nat.add_zero, Nat.mod_eq_of_lt h1]
        simp
      · apply List.map_congr_left
        intro i _
        simp only [Function.comp_apply]
        have h2 : fsp + Nat.succ i + 1 = fsp + 1 + i + 1 := by omega
        rw [h2]

/-- C5 (amended): with no cancellation and `files_before_pause = fbp ≥ 1`,
exactly one pause occurs after every `fbp` completed files — counting
every completed file, whether or not its processing reported an error —
i.e. a pause follows the `i`-th file (0-based) iff `(i + 1) % fbp = 0`;
the counter resets to zero after each pause. -/
theorem c5_pause_cadence (B fbp : Nat) (hfbp : 1 ≤ fbp)
    (files : List (List Row)) :
    (runLoop B fbp (fun _ => false) files 0 0).pauses
      = (List.range files.length).map
          (fun i => decide ((i + 1) % fbp = 0)) := by
  rw [runLoop_pauses B fbp hfbp files 0 0 hfbp]
  apply List.map_congr_left
  intro i _
  rw [Nat.zero_add]

/-- Counterexample to C5 as stated: with `files_before_pause = 2` and a
run of two files of which the first errors, the code pauses after the
second file (it counts every completed file), although only one file
completed successfully — the cadence the claim words describe
(`spec_pauses_after_successes`) pauses nowhere on this run. -/
theorem c5_pause_cadence_counterexample :
    (runLoop 10 2 (fun _ => false) [[Row.raise], []] 0 0).pauses
        = [false, true] ∧
    (runLoop 10 2 (fun _ => false) [[Row.raise], []] 0 0).moved_to_error
        = [true, false] ∧
    spec_pauses_after_successes 2 [true, false] 0 = [false, false] ∧
    ¬((runLoop 10 2 (fun _ => false) [[Row.raise], []] 0 0).pauses
        = spec_pauses_after_successes 2 [true, false] 0) := by
  decide

/-- Witness for `c5_pause_cadence`: three files, pause cadence two. -/
theorem c5_pause_cadence_witness :
    (runLoop 5 2 (fun _ => false) [[], [], []] 0 0).pauses
      = [false, true, false] :=
  (c5_pause_cadence 5 2 (by decide) [[], [], []]).trans (by decide)

/-! ## C6: cooperative cancellation -/

/-- Unfolding of `countIng` over a cons. -/
theorem countIng_cons (r : Row) (l : List Row) :
    countIng (r :: l) = countIng l + (if r = Row.ok true then 1 else 0) := by
  by_cases h : r = Row.ok true <;> simp [countIng, List.filter_cons, h]

/-- Monotonicity: `countIng` of a longer prefix dominates. -/
theorem countIng_take_mono (l : List Row) : ∀ {m n : Nat}, m ≤ n →
    countIng (l.take m) ≤ countIng (l.take n) := by
  induction l with
  | nil => intro m n _; simp
  | cons r rs ih =>
    intro m n hmn
    cases m with
    | zero => simp [countIng]
    | succ m =>
      cases n with
      | zero => omega
      | succ n =>
        rw [List.take_succ_cons, List.take_succ_cons, countIng_cons,
          countIng_cons]
        have := ih (Nat.le_of_succ_le_succ hmn)
        omega

/-- C6: once the cancellation signal is observed (it stays set once set,
`hmono`, and is set by read index `k`): (1) if the signal is already set
at the packet loop's current check, the loop processes no further packet;
(2) the signal is checked at every packet boundary, so at most the
ingestible rows strictly before the observation point are ever processed;
(3) if the signal is already set at the file loop's check, no new file
begins. -/
theorem c6_cancellation (sig : Nat → Bool)
    (hmono : ∀ i j, i ≤ j → sig i = true → sig j = true)
    (k : Nat) (hk : sig k = true) :
    (∀ (B : Nat) (rows : List Row) (p b fl g : Nat), k ≤ g →
      (pfLoop B sig rows g p b fl).packets = p) ∧
    (∀ (B : Nat) (rows : List Row) (p b fl g : Nat),
      (pfLoop B sig rows g p b fl).packets
        ≤ p + countIng (rows.take (k - g))) ∧
    (∀ (B fbp : Nat) (files : List (List Row)) (fsp g : Nat), k ≤ g →
      (runLoop B fbp sig files g fsp).started = 0) := by
  refine ⟨?_, ?_, ?_⟩
  · intro B rows p b fl g hkg
    cases rows with
    | nil => rfl
    | cons r rs => simp [pfLoop, hmono k g hkg hk]
  · intro B rows
    induction rows with
    | nil => intro p b fl g; exact Nat.le_add_right _ _
    | cons r rs ih =>
      intro p b fl g
      cases hsg : sig g with
      | true => simp [pfLoop, hsg, Nat.le_add_right]
      | false =>
        have hglt : g < k := by
          by_contra hc
          rw [hmono k g (by omega) hk] at hsg
          exact Bool.true_eq_false ▸ hsg.symm ▸ rfl
        have hkg : k - g = (k - (g + 1)) + 1 := by omega
        rw [hkg, List.take_succ_cons, countIng_cons]
        cases r with
        | raise => simp [pfLoop, hsg, Nat.le_add_right]
        | ok ing =>
          cases ing with
          | true =>
            by_cases hB1 : B ≤ b + 1
            · cases hs2 : sig (g + 1) with
              | true =>
                simp only [pfLoop, hsg, Bool.false_eq_true, if_false, hB1,
                  if_true, hs2]
                simp
              | false =>
                simp only [pfLoop, hsg, Bool.false_eq_true, if_false, hB1,
                  if_true, hs2]
                have h1 := ih (p + 1) 0 (fl + 1) (g + 2)
                have h2 : countIng (rs.take (k - (g + 2)))
                    ≤ countIng (rs.take (k - (g + 1))) :=
                  countIng_take_mono rs (by omega)
                omega
            · simp only [pfLoop, hsg, Bool.false_eq_true, if_false, hB1,
                if_true]
              have h1 := ih (p + 1) (b + 1) fl (g + 1)
              omega
          | false =>
            simp only [pfLoop, hsg, Bool.false_eq_true, if_false]
            have h1 := ih p b fl (g + 1)
            have : (if Row.ok false = Row.ok true then 1 else 0) = 0 := by
              decide
            omega
  · intro B fbp files fsp g hkg
    cases files with
    | nil => rfl
    | cons f fs => simp [runLoop, hmono k g hkg hk]

/-- Witness for `c6_cancellation`: a signal set from read index 2 onward
stops a packet loop entered at index 2 before any packet, and prevents a
file loop entered at index 2 from starting any file. -/
theorem c6_cancellation_witness :
    (pfLoop 1 (fun i => decide (2 ≤ i)) [Row.ok true] 2 0 0 0).packets
        = 0 ∧
    (runLoop 1 3 (fun i => decide (2 ≤ i)) [[Row.ok true]] 2 0).started
        = 0 := by
  have h := c6_cancellation (fun i => decide (2 ≤ i))
    (fun i j hij hi => by
      simp only [decide_eq_true_eq] at hi ⊢
      omega) 2 (by decide)
  exact ⟨h.1 1 [Row.ok true] 0 0 0 2 (by omega),
    h.2.2 1 3 [[Row.ok true]] 0 2 (by omega)⟩

/-! ## C7: snapshot degradation -/

/-- Lookup in an association list built by mapping a function over the key
list finds the function's value at any listed key. -/
theorem lookup_map_self (f : String → List String) (t : String) :
    ∀ tgts : List String, t ∈ tgts →
      (tgts.map (fun x => (x, f x))).lookup t = some (f t) := by
  intro tgts
  induction tgts with
  | nil => intro h; cases h
  | cons a tl ih =>
    intro h
    rw [List.map_cons, List.lookup_cons]
    by_cases hta : t = a
    · subst hta
      simp
    · have : (t == a) = false := by simp [hta]
      rw [this]
      rcases List.mem_cons.mp h with h1 | h1
      · exact absurd h1 hta
      · exact ih h1

/-- C7: when the snapshot is loaded, a failure of one target's telemetry
or command packet-list call degrades to the empty set for that target
while the load succeeds, whereas a failing target-list call propagates as
an exception out of `_load_valid_targets_packets`, and `run`'s handler
then sets the state to `ERROR`. -/
theorem c7_snapshot_degradation (tgts : List String)
    (tlmRes cmdRes : String → Except String (List String))
    (e : String) (rest : Defs → String) :
    (∀ defs, load_valid_targets_packets (Except.ok tgts) tlmRes cmdRes
        = Except.ok defs →
      ∀ t ∈ tgts,
        (∀ msg, tlmRes t = Except.error msg →
          lookupD defs.valid_tlm_packets t = []) ∧
        (∀ msg, cmdRes t = Except.error msg →
          lookupD defs.valid_cmd_packets t = [])) ∧
    load_valid_targets_packets (Except.error e) tlmRes cmdRes
      = Except.error e ∧
    run_state_after_snapshot (Except.error e) tlmRes cmdRes rest
      = "ERROR" := by
  refine ⟨?_, rfl, rfl⟩
  intro defs hdefs t ht
  rw [load_valid_targets_packets] at hdefs
  have hdefs2 := Except.ok.inj hdefs
  subst hdefs2
  constructor
  · intro msg hmsg
    rw [lookupD, lookup_map_self (fun x =>
      match tlmRes x with
      | Except.ok l => l
      | Except.error _ => []) t tgts ht]
    simp [hmsg]
  · intro msg hmsg
    rw [lookupD, lookup_map_self (fun x =>
      match cmdRes x with
      | Except.ok l => l
      | Except.error _ => []) t tgts ht]
    simp [hmsg]

/-- Witness for `c7_snapshot_degradation`: a target whose telemetry list
fails gets the empty set, and a failing target list yields state
`ERROR`. -/
theorem c7_snapshot_degradation_witness :
    lookupD (Defs.mk ["T"]
        [("T", [])] [("T", ["P"])]).valid_tlm_packets ("T") = [] ∧
    run_state_after_snapshot (Except.error ("boom"))
      (fun _ => Except.error ("x")) (fun _ => Except.ok ["P"])
      (fun _ => "DONE") = "ERROR" := by
  have h := c7_snapshot_degradation ["T"] (fun _ => Except.error ("x"))
    (fun _ => Except.ok ["P"]) ("boom") (fun _ => "DONE")
  refine ⟨?_, h.2.2⟩
  have h2 := h.1 ⟨["T"], [("T", [])], [("T", ["P"])]⟩ rfl ("T") (by simp)
  exact h2.1 ("x") rfl

/-! ## C8: file lifecycle routing -/

/-- A freshly put object is found at its key. -/
theorem getObject_putObject_self (b : BucketSt) (k : String) (v : Nat) :
    getObject (putObject b k v) k = some v := by
  simp [getObject, putObject, List.lookup_cons]

/-- Removing one key leaves lookups at other keys unchanged. -/
theorem lookup_filter_ne (k k' : String) (h : k' ≠ k) :
    ∀ b : BucketSt,
      (b.filter (fun p => !(p.1 == k))).lookup k' = b.lookup k' := by
  intro b
  induction b with
  | nil => rfl
  | cons a tl ih =>
    obtain ⟨a1, a2⟩ := a
    rw [List.filter_cons]
    by_cases hak : a1 = k
    · have h1 : (!((a1, a2).1 == k)) = false := by simp [hak]
      rw [h1]
      simp only [Bool.false_eq_true, if_false]
      rw [ih, List.lookup_cons]
      have h2 : (k' == a1) = false := by
        subst hak
        simp [h]
      rw [h2]
    · have h1 : (!((a1, a2).1 == k)) = true := by simp [hak]
      rw [h1]
      simp only [if_true]
      rw [List.lookup_cons, List.lookup_cons]
      cases hka : k' == a1
      · simp only []
        exact ih
      · rfl

/-- Putting at one key leaves lookups at other keys unchanged. -/
theorem getObject_putObject_ne (b : BucketSt) (k k' : String) (v : Nat)
    (h : k' ≠ k) :
    getObject (putObject b k v) k' = getObject b k' := by
  rw [getObject, putObject, List.lookup_cons]
  have h2 : (k' == k) = false := by simp [h]
  rw [h2]
  exact lookup_filter_ne k k' h b

/-- A deleted key is gone. -/
theorem getObject_deleteObject_self (b : BucketSt) (k : String) :
    getObject (deleteObject b k) k = none := by
  rw [getObject, deleteObject]
  induction b with
  | nil => rfl
  | cons a tl ih =>
    obtain ⟨a1, a2⟩ := a
    rw [List.filter_cons]
    by_cases hak : a1 = k
    · have h1 : (!((a1, a2).1 == k)) = false := by simp [hak]
      rw [h1]
      simpa using ih
    · have h1 : (!((a1, a2).1 == k)) = true := by simp [hak]
      rw [h1]
      simp only [if_true]
      rw [List.lookup_cons]
      have h2 : (k == a1) = false := by
        simp only [beq_eq_false_iff_ne, ne_eq]
        intro he
        exact hak he.symm
      rw [h2]
      exact ih

/-- Deleting one key leaves lookups at other keys unchanged. -/
theorem getObject_deleteObject_ne (b : BucketSt) (k k' : String)
    (h : k' ≠ k) :
    getObject (deleteObject b k) k' = getObject b k' :=
  lookup_filter_ne k k' h b

/-- A successful startsWith bounds the pattern's length. -/
theorem startsWithL_length : ∀ pat s : List Char,
    startsWithL pat s = true → pat.length ≤ s.length := by
  intro pat
  induction pat with
  | nil => intro s _; simp
  | cons a as ih =>
    intro s h
    cases s with
    | nil => exact absurd h (by rw [startsWithL]; simp)
    | cons b bs =>
      rw [startsWithL, Bool.and_eq_true] at h
      have := ih bs h.2
      simp only [List.length_cons]
      omega

/-- Length bookkeeping of a first-occurrence replacement: when the
pattern occurs, the output length shifts by the pattern/replacement
length difference. -/
theorem replaceFirstL_length (old new : List Char) :
    ∀ s : List Char, containsSubL old s = true →
      (replaceFirstL old new s).length + old.length
        = s.length + new.length := by
  intro s
  induction s with
  | nil =>
    intro h
    rw [containsSubL] at h
    have hlen := startsWithL_length old [] h
    have hold : old = [] := List.length_eq_zero.mp (by simpa using hlen)
    subst hold
    simp [replaceFirstL, startsWithL]
  | cons c cs ih =>
    intro h
    rw [replaceFirstL]
    by_cases hs : startsWithL old (c :: cs) = true
    · rw [if_pos hs]
      have hle := startsWithL_length old (c :: cs) hs
      simp only [List.length_append, List.length_drop, List.length_cons]
      simp only [List.length_cons] at hle
      omega
    · rw [if_neg hs]
      rw [containsSubL, Bool.or_eq_true] at h
      have h2 : containsSubL old cs = true := by
        rcases h with h | h
        · exact absurd h hs
        · exact h
      have h3 := ih h2
      simp only [List.length_cons]
      omega

/-- Replacing a present pattern by a strictly longer one changes the
string. -/
theorem strReplaceFirst_ne (p old new : String)
    (h : strContains p old = true)
    (hlen : old.toList.length < new.toList.length) :
    strReplaceFirst p old new ≠ p := by
  intro heq
  have h2 : (strReplaceFirst p old new).toList = p.toList :=
    congrArg String.toList heq
  have h3 := replaceFirstL_length (old.toList) (new.toList) (p.toList) h
  rw [show (strReplaceFirst p old new).toList
      = replaceFirstL old.toList new.toList p.toList from rfl] at h2
  rw [h2] at h3
  omega

/-- Copy-then-delete behaviour of the move `try` body: on success the
content sits at the destination and the original is gone; an exception at
any step leaves the original in place. -/
theorem move_object_spec (b : BucketSt) (orig dest : String) (c : Nat)
    (hmem : getObject b orig = some c) (hne : dest ≠ orig) :
    getObject (move_object b orig dest none) dest = some c ∧
    getObject (move_object b orig dest none) orig = none ∧
    (∀ mf, getObject (move_object b orig dest (some mf)) orig = some c) := by
  refine ⟨?_, ?_, ?_⟩
  · rw [move_object, hmem]
    rw [getObject_deleteObject_ne _ _ _ hne, getObject_putObject_self]
  · rw [move_object, hmem]
    exact getObject_deleteObject_self _ _
  · intro mf
    cases mf with
    | atGet => exact hmem
    | atPut => exact hmem
    | atDelete =>
      rw [move_object, hmem]
      rw [getObject_putObject_ne _ _ _ _ (fun he => hne he.symm)]
      exact hmem

/-- C8: a processed file is copied to its original path with the first
`/decom_logs/` segment replaced by `/error/decom_logs/` when processing
reported an error, else `/processed/decom_logs/`, and the original is
deleted; if any step of the copy-then-delete raises, the exception is
swallowed (the run continues) and the file is still at its original
path. -/
theorem c8_file_lifecycle (b : BucketSt) (file_path : String) (c : Nat)
    (had_error : Bool) (fail : Option MoveFail)
    (hmem : getObject b file_path = some c)
    (hseg : strContains file_path ("/decom_logs/") = true) :
    (fail = none →
      getObject (move_after_processing b file_path had_error fail)
          (strReplaceFirst file_path ("/decom_logs/")
            (if had_error then ("/error/decom_logs/")
              else ("/processed/decom_logs/"))) = some c ∧
      getObject (move_after_processing b file_path had_error fail)
          file_path = none) ∧
    (∀ mf : MoveFail, fail = some mf →
      getObject (move_after_processing b file_path had_error fail)
          file_path = some c) := by
  cases had_error with
  | true =>
    have hne : error_path file_path ≠ file_path :=
      strReplaceFirst_ne file_path _ _ hseg (by decide)
    have hspec := move_object_spec b file_path (error_path file_path) c
      hmem hne
    constructor
    · intro hf
      subst hf
      simp only [move_after_processing, if_true]
      exact ⟨hspec.1, hspec.2.1⟩
    · intro mf hf
      subst hf
      simp only [move_after_processing, if_true]
      exact hspec.2.2 mf
  | false =>
    have hne : processed_path file_path ≠ file_path :=
      strReplaceFirst_ne file_path _ _ hseg (by decide)
    have hspec := move_object_spec b file_path (processed_path file_path) c
      hmem hne
    constructor
    · intro hf
      subst hf
      simp only [move_after_processing, Bool.false_eq_true, if_false]
      exact ⟨hspec.1, hspec.2.1⟩
    · intro mf hf
      subst hf
      simp only [move_after_processing, Bool.false_eq_true, if_false]
      exact hspec.2.2 mf

/-- Witness for `c8_file_lifecycle`: a clean file moves to the processed
mirror and disappears from its original path. -/
theorem c8_file_lifecycle_witness :
    getObject (move_after_processing [(fileA, 7)] fileA false none)
        (strReplaceFirst fileA ("/decom_logs/")
          (if false then ("/error/decom_logs/")
            else ("/processed/decom_logs/"))) = some 7 ∧
    getObject (move_after_processing [(fileA, 7)] fileA false none)
        fileA = none :=
  (c8_file_lifecycle [(fileA, 7)] fileA 7 false none (by decide)
    (by decide)).1 rfl

/-! ## C9: schema-load idempotence -/

/-- C9: `_load_table_schema` is memoized per table name: after any call,
a second call for the same table performs no metadata query and returns
the state unchanged; and on a metadata-query failure (with the table not
yet loaded) the call registers no column classification — the column
dicts keep exactly their previous contents — while still marking the
table as loaded, without failing the run. -/
theorem c9_schema_idempotence
    (query : String → Except String (List (String × String)))
    (st : SchemaSt) (table_name : String) :
    (load_table_schema query
        ((load_table_schema query st table_name).1) table_name
      = ((load_table_schema query st table_name).1, false)) ∧
    (∀ msg, query table_name = Except.error msg →
      table_name ∉ st.loaded_schemas →
      load_table_schema query st table_name
        = ({ st with loaded_schemas := st.loaded_schemas ++ [table_name] },
            true)) := by
  constructor
  · have hmem : table_name
        ∈ (load_table_schema query st table_name).1.loaded_schemas := by
      rw [load_table_schema]
      by_cases hc : st.loaded_schemas.contains table_name = true
      · rw [if_pos hc]
        simpa using hc
      · rw [if_neg hc]
        simp
    have hc2 : ((load_table_schema query st
        table_name).1.loaded_schemas).contains table_name = true := by
      simpa using hmem
    rw [load_table_schema, if_pos hc2]
  · intro msg hq hnot
    have hc : st.loaded_schemas.contains table_name = false := by
      simpa using hnot
    rw [load_table_schema, if_neg (by simp [hnot]), hq]

/-- Witness for `c9_schema_idempotence`: a failing query marks the table
loaded with no column classifications, and the second call is a no-op. -/
theorem c9_schema_idempotence_witness :
    load_table_schema (fun _ => Except.error ("q"))
        (SchemaSt.mk [] [] [] [] []) "TBL"
      = (SchemaSt.mk ["TBL"] [] [] [] [], true) ∧
    load_table_schema (fun _ => Except.error ("q"))
        (SchemaSt.mk ["TBL"] [] [] [] []) "TBL"
      = (SchemaSt.mk ["TBL"] [] [] [] [], false) := by
  have h := c9_schema_idempotence (fun _ => Except.error ("q"))
    (SchemaSt.mk [] [] [] [] []) "TBL"
  exact ⟨h.2 ("q") rfl (by simp), h.1⟩

/-! ## C10: partial progress on a mid-file error -/

/-- Packet accounting up to a raising row: with no cancellation, the loop
returns the packets ingested before the failure and reports the error. -/
theorem pfLoop_raise (B : Nat) :
    ∀ pre : List Row, Row.raise ∉ pre →
      ∀ (post : List Row) (g p b fl : Nat),
      (pfLoop B (fun _ => false) (pre ++ Row.raise :: post) g p b fl).packets
          = p + countIng pre ∧
      (pfLoop B (fun _ => false) (pre ++ Row.raise :: post) g p b fl).errored
          = true := by
  intro pre
  induction pre with
  | nil =>
    intro _ post g p b fl
    simp [pfLoop, countIng]
  | cons r rs ih =>
    intro hnr post g p b fl
    have hr : r ≠ Row.raise := fun he => hnr (he ▸ List.mem_cons_self _ _)
    have hnr2 : Row.raise ∉ rs := fun hm => hnr (List.mem_cons_of_mem _ hm)
    cases r with
    | raise => exact absurd rfl hr
    | ok ing =>
      rw [List.cons_append, countIng_cons]
      cases ing with
      | true =>
        by_cases hB1 : B ≤ b + 1
        · simp only [pfLoop, Bool.false_eq_true, if_false, hB1, if_true]
          have h1 := ih hnr2 post (g + 2) (p + 1) 0 (fl + 1)
          refine ⟨h1.1.trans ?_, h1.2⟩
          omega
        · simp only [pfLoop, Bool.false_eq_true, if_false, hB1, if_true]
          have h1 := ih hnr2 post (g + 1) (p + 1) (b + 1) fl
          refine ⟨h1.1.trans ?_, h1.2⟩
          omega
      | false =>
        simp only [pfLoop, Bool.false_eq_true, if_false]
        have h1 := ih hnr2 post (g + 1) p b fl
        refine ⟨h1.1.trans ?_, h1.2⟩
        have h0 : (if Row.ok false = Row.ok true then 1 else 0) = 0 := by
          decide
        omega

/-- C10: a file that raises mid-processing makes `_process_file` return
the packets ingested before the failure with `had_error = true`, and the
run still adds those packets to `packets_ingested`, increments
`files_processed` by one, increments `errors_count` by exactly one, and
routes the file to the error mirror. -/
theorem c10_partial_progress (B fbp : Nat) (hfbp : 2 ≤ fbp)
    (pre post : List Row) (hpre : Row.raise ∉ pre)
    (fs : List (List Row)) (g : Nat) :
    (process_file B (fun _ => false) (pre ++ Row.raise :: post) g).packets
        = countIng pre ∧
    (process_file B (fun _ => false) (pre ++ Row.raise :: post) g).errored
        = true ∧
    (runLoop B fbp (fun _ => false)
        ((pre ++ Row.raise :: post) :: fs) g 0).packets
      = countIng pre
        + (runLoop B fbp (fun _ => false) fs
            (process_file B (fun _ => false) (pre ++ Row.raise :: post)
              (g + 1)).next 1).packets ∧
    (runLoop B fbp (fun _ => false)
        ((pre ++ Row.raise :: post) :: fs) g 0).files
      = 1 + (runLoop B fbp (fun _ => false) fs
            (process_file B (fun _ => false) (pre ++ Row.raise :: post)
              (g + 1)).next 1).files ∧
    (runLoop B fbp (fun _ => false)
        ((pre ++ Row.raise :: post) :: fs) g 0).errors
      = 1 + (runLoop B fbp (fun _ => false) fs
            (process_file B (fun _ => false) (pre ++ Row.raise :: post)
              (g + 1)).next 1).errors ∧
    (runLoop B fbp (fun _ => false)
        ((pre ++ Row.raise :: post) :: fs) g 0).moved_to_error
      = true :: (runLoop B fbp (fun _ => false) fs
            (process_file B (fun _ => false) (pre ++ Row.raise :: post)
              (g + 1)).next 1).moved_to_error := by
  have hpf : ∀ g' : Nat,
      (process_file B (fun _ => false) (pre ++ Row.raise :: post)
        g').packets = countIng pre ∧
      (process_file B (fun _ => false) (pre ++ Row.raise :: post)
        g').errored = true := by
    intro g'
    have h := pfLoop_raise B pre hpre post g' 0 0 0
    rw [process_file]
    simp only [h.2, if_true]
    exact ⟨h.1.trans (Nat.zero_add _), trivial⟩
  refine ⟨(hpf g).1, (hpf g).2, ?_, ?_, ?_, ?_⟩ <;>
  · simp only [runLoop, Bool.false_eq_true, if_false]
    rw [if_neg (by omega)]
    try simp only [(hpf (g + 1)).1, (hpf (g + 1)).2, errInc, if_true]

/-- Witness for `c10_partial_progress`: one good row then a raising row:
one packet is returned and the run's error count grows by one. -/
theorem c10_partial_progress_witness :
    (process_file 1 (fun _ => false)
        ([Row.ok true] ++ Row.raise :: []) 0).packets
      = countIng [Row.ok true] ∧
    (runLoop 1 2 (fun _ => false)
        (([Row.ok true] ++ Row.raise :: []) :: []) 0 0).errors
      = 1 + (runLoop 1 2 (fun _ => false) []
            (process_file 1 (fun _ => false)
              ([Row.ok true] ++ Row.raise :: []) (0 + 1)).next 1).errors := by
  have h := c10_partial_progress 1 2 (by decide) [Row.ok true] []
    (by decide) [] 0
  exact ⟨h.1, h.2.2.2.2.1⟩

/-! ## C1: resume trimming -/

/-- C1 (evidence of the code bug): the file-selection pipeline of `run`
takes no checkpoint input at all — even when a persisted checkpoint with
`last_file = fileB` (parsed timestamp 200) exists, the selected list is
the full filtered catalog `[fileA, fileB, fileC]`, which contains `fileA`
whose parsed timestamp 300 is `≥ 200`, and the in-memory counters are the
`__init__` zeros rather than being seeded from the checkpoint. -/
theorem c1_resume_not_implemented :
    run_file_selection sample_parse sample_defs sample_ts
        [fileA, fileB, fileC] [] = [fileA, fileB, fileC] ∧
    fileA ∈ run_file_selection sample_parse sample_defs sample_ts
        [fileA, fileB, fileC] [] ∧
    sample_ts fileB ≤ sample_ts fileA := by
  decide
